import Mathlib

/-!
Verification development for the SemVerX registry client
(`pysemverx_registry.py`).  Python strings are embedded as `List Char`,
the remote registry as a structure of response functions, and Python
exceptions as an explicit error type.
-/

set_option maxRecDepth 4000

deriving instance DecidableEq for Except

/-- Python strings are embedded as lists of characters. -/
abbrev Str := List Char

/-- Embed a Lean string literal as a `Str`. -/
def lit (s : String) : Str := s.data

/-- Python exceptions raised by the client:
`ResolutionError`, `ValueError` (from `int()`, enum construction by value,
and tuple unpacking), bare `Exception` (from `subscribe`), the error raised
by `requests.Response.raise_for_status`, and `RecursionError` (CPython's
recursion-depth limit). -/
inductive PyErr where
  | resolutionError (msg : Str)
  | valueError (msg : Str)
  | exception (msg : Str)
  | httpError (msg : Str)
  | recursionError
  deriving DecidableEq, Repr

/-- `class VersionState(Enum)`: STABLE / LEGACY / EXPERIMENTAL. -/
inductive VersionState where
  | STABLE
  | LEGACY
  | EXPERIMENTAL
  deriving DecidableEq, Repr

/-- The `.value` of each `VersionState` member. -/
def VersionState.value : VersionState → Str
  | .STABLE => lit "stable"
  | .LEGACY => lit "legacy"
  | .EXPERIMENTAL => lit "experimental"

/-- Python `VersionState(s)`: enum lookup by value — returns the member whose
value equals `s` exactly, otherwise raises `ValueError`. -/
def VersionState.ofValue (s : Str) : Except PyErr VersionState :=
  if s = lit "stable" then .ok .STABLE
  else if s = lit "legacy" then .ok .LEGACY
  else if s = lit "experimental" then .ok .EXPERIMENTAL
  else .error (.valueError (lit "is not a valid VersionState"))

/-! ### Decimal numerals

Python's `int(s)` builtin and `str(n)` formatting.  `int()` strips leading
and trailing whitespace, takes an optional ASCII sign, and then one or more
decimal digits — any Unicode Nd decimal digit, leading zeros included — with
single `_` separators allowed between digits; everything else raises
`ValueError`.  The whitespace and digit tables below were determined by
exhaustively probing CPython 3.11 (Unicode 14.0) over all code points;
later Unicode versions only add further digit runs (Kawi, Nag Mundari).
`str` renders canonical ASCII decimal.
-/

/-- Value of a decimal digit character. -/
def digitVal (c : Char) : Nat := c.toNat - 48

/-- The digit character for `n < 10`. -/
def digitChar (n : Nat) : Char := Char.ofNat (n + 48)

/-- Numeric value of a digit string, most significant first. -/
def natFromDigits (l : Str) : Nat := l.foldl (fun a c => 10 * a + digitVal c) 0

/-- `True` for an ASCII digit character (code points 48–57). -/
def isDigitC (c : Char) : Bool := 48 ≤ c.toNat && c.toNat ≤ 57

/-- The code points `int()` strips as whitespace. -/
def pySpaceCodes : List Nat :=
  [0x09, 0x0A, 0x0B, 0x0C, 0x0D, 0x20, 0x85, 0xA0,
   0x1680, 0x2000, 0x2001, 0x2002, 0x2003, 0x2004, 0x2005, 0x2006, 0x2007,
   0x2008, 0x2009, 0x200A, 0x2028, 0x2029, 0x202F, 0x205F, 0x3000]

/-- Python whitespace test. -/
def isPySpace (c : Char) : Bool := decide (c.toNat ∈ pySpaceCodes)

/-- Strip leading and trailing Python whitespace. -/
def pyStrip (l : Str) : Str :=
  ((l.dropWhile isPySpace).reverse.dropWhile isPySpace).reverse

/-- First code points of the runs of ten consecutive Unicode Nd decimal
digits (Unicode 14.0): ASCII, Arabic-Indic, Extended Arabic-Indic, NKo, the
Indic scripts, Thai, Lao, Tibetan, Myanmar, Khmer, Mongolian, …, Fullwidth,
and the supplementary-plane scripts. -/
def ndBases : List Nat :=
  [0x30, 0x660, 0x6F0, 0x7C0, 0x966, 0x9E6, 0xA66, 0xAE6, 0xB66, 0xBE6,
   0xC66, 0xCE6, 0xD66, 0xDE6, 0xE50, 0xED0, 0xF20, 0x1040, 0x1090, 0x17E0,
   0x1810, 0x1946, 0x19D0, 0x1A80, 0x1A90, 0x1B50, 0x1BB0, 0x1C40, 0x1C50,
   0xA620, 0xA8D0, 0xA900, 0xA9D0, 0xA9F0, 0xAA50, 0xABF0, 0xFF10,
   0x104A0, 0x10D30, 0x11066, 0x110F0, 0x11136, 0x111D0, 0x112F0, 0x11450,
   0x114D0, 0x11650, 0x116C0, 0x11730, 0x118E0, 0x11950, 0x11C50, 0x11D50,
   0x11DA0, 0x16A60, 0x16AC0, 0x16B50, 0x1D7CE, 0x1D7D8, 0x1D7E2,
   0x1D7EC, 0x1D7F6, 0x1E140, 0x1E2F0, 0x1E950, 0x1FBF0]

/-- `Py_UNICODE_TODECIMAL`: the decimal value of a Unicode Nd digit, `none`
for every other character. -/
def decDigit? (c : Char) : Option Nat :=
  match ndBases.find? (fun b => b ≤ c.toNat && c.toNat < b + 10) with
  | some b => some (c.toNat - b)
  | none => none

/-- Continue a digit group: further digits, each optionally preceded by one
`_` (Python allows a single underscore only between two digits, so a
trailing or doubled underscore fails). -/
def pyDigitsRest (acc : Nat) : Str → Option Nat
  | [] => some acc
  | [c] =>
      if c = '_' then none
      else
        match decDigit? c with
        | some d => some (10 * acc + d)
        | none => none
  | c :: c2 :: rest =>
      if c = '_' then
        match decDigit? c2 with
        | some d => pyDigitsRest (10 * acc + d) rest
        | none => none
      else
        match decDigit? c with
        | some d => pyDigitsRest (10 * acc + d) (c2 :: rest)
        | none => none

/-- The digit part of `int()`: one or more decimal digits with single
underscores between digits, and nothing else. -/
def pyDigits : Str → Option Nat
  | [] => none
  | c :: rest =>
      match decDigit? c with
      | some d => pyDigitsRest d rest
      | none => none

/-- Python `int(s)`: strip whitespace, optional `+`/`-` sign, then the digit
part; any other shape raises `ValueError`. -/
def pyInt (s : Str) : Except PyErr Int :=
  match pyStrip s with
  | [] => .error (.valueError (lit "invalid literal for int"))
  | c :: rest =>
      if c = '-' then
        match pyDigits rest with
        | some n => .ok (-(n : Int))
        | none => .error (.valueError (lit "invalid literal for int"))
      else if c = '+' then
        match pyDigits rest with
        | some n => .ok (n : Int)
        | none => .error (.valueError (lit "invalid literal for int"))
      else
        match pyDigits (c :: rest) with
        | some n => .ok (n : Int)
        | none => .error (.valueError (lit "invalid literal for int"))

/-- Digit expansion of a natural number, fuel-driven so that it computes by
kernel reduction; `fuel > n` suffices. -/
def natToDigitsCore : Nat → Nat → Str → Str
  | 0, _, acc => acc
  | f + 1, n, acc =>
      if n < 10 then digitChar n :: acc
      else natToDigitsCore f (n / 10) (digitChar (n % 10) :: acc)

/-- Canonical decimal digits of a natural number (`str(n)` for `n ≥ 0`). -/
def natToDigits (n : Nat) : Str := natToDigitsCore (n + 1) n []

/-- Python `str(n)` for an integer. -/
def intToStr (n : Int) : Str :=
  if n < 0 then '-' :: natToDigits n.natAbs else natToDigits n.toNat

/-- Python `s.split(sep)` for a one-character separator: splits at every
occurrence, keeping empty pieces (`''.split('.') == ['']`). -/
def splitOnChar (sep : Char) : Str → List Str
  | [] => [[]]
  | c :: rest =>
      match splitOnChar sep rest with
      | [] => [[]]
      | t :: ts => if c = sep then [] :: t :: ts else (c :: t) :: ts

/-- Join pieces with a one-character separator (inverse of `splitOnChar`). -/
def joinChar (sep : Char) : List Str → Str
  | [] => []
  | [t] => t
  | t :: ts => t ++ sep :: joinChar sep ts

/-! ### SemVerX versions (`class SemverX`, lines 29–56) -/

/-- `@dataclass class SemverX`: six fields, numeric slots are Python `int`s. -/
structure SemverX where
  major : Int
  major_state : VersionState
  minor : Int
  minor_state : VersionState
  patch : Int
  patch_state : VersionState
  deriving DecidableEq, Repr

/-- `SemverX.__str__` (line 39–40): the six dot-joined fields in order. -/
def SemverX.toStr (v : SemverX) : Str :=
  intToStr v.major ++ '.' :: (v.major_state.value ++ '.' :: (intToStr v.minor ++
    '.' :: (v.minor_state.value ++ '.' :: (intToStr v.patch ++
      '.' :: v.patch_state.value))))

/-- `SemverX.parse` (lines 42–56): split on `.`, require exactly six tokens,
then `int()` the even tokens and `VersionState()` the odd tokens, in the
left-to-right evaluation order of the constructor call. -/
def SemverX.parse (s : Str) : Except PyErr SemverX :=
  match splitOnChar '.' s with
  | [p0, p1, p2, p3, p4, p5] => do
      let major ← pyInt p0
      let major_state ← VersionState.ofValue p1
      let minor ← pyInt p2
      let minor_state ← VersionState.ofValue p3
      let patch ← pyInt p4
      let patch_state ← VersionState.ofValue p5
      .ok ⟨major, major_state, minor, minor_state, patch, patch_state⟩
  | _ => .error (.valueError (lit "Invalid SemVerX format"))

/-! ### Fault states (`class FaultState`, lines 58–67) -/

/-- `class FaultState(Enum)`: the eight named severity thresholds. -/
inductive FaultState where
  | CLEAN
  | LOW_WARNING
  | MEDIUM_WARNING
  | HIGH_WARNING
  | LOW_DANGER
  | CRITICAL_DANGER
  | LOW_PANIC
  | SYSTEM_PANIC
  deriving DecidableEq, Repr

/-- The `.value` of each `FaultState` member (0, 1, 3, 5, 6, 11, 12, 17). -/
def FaultState.val : FaultState → Nat
  | .CLEAN => 0
  | .LOW_WARNING => 1
  | .MEDIUM_WARNING => 3
  | .HIGH_WARNING => 5
  | .LOW_DANGER => 6
  | .CRITICAL_DANGER => 11
  | .LOW_PANIC => 12
  | .SYSTEM_PANIC => 17

/-- Python `FaultState(n)` (used at line 169): enum lookup by value — succeeds
only when `n` equals the value of some member exactly, otherwise raises
`ValueError`. -/
def FaultState.ofValue (n : Int) : Except PyErr FaultState :=
  if n = 0 then .ok .CLEAN
  else if n = 1 then .ok .LOW_WARNING
  else if n = 3 then .ok .MEDIUM_WARNING
  else if n = 5 then .ok .HIGH_WARNING
  else if n = 6 then .ok .LOW_DANGER
  else if n = 11 then .ok .CRITICAL_DANGER
  else if n = 12 then .ok .LOW_PANIC
  else if n = 17 then .ok .SYSTEM_PANIC
  else .error (.valueError (lit "is not a valid FaultState"))

/-- The blocking test applied at line 170:
`fault_state.value >= FaultState.SYSTEM_PANIC.value`. -/
def FaultState.isBlocking (fs : FaultState) : Bool :=
  FaultState.SYSTEM_PANIC.val ≤ fs.val

/-! ### Packages and the remote side -/

/-- `@dataclass class Package` (lines 79–91). -/
structure Package where
  id : Str
  version : SemverX
  name : Str
  description : Str
  author : Str
  license : Str
  tarball_url : Str
  dependencies : List Str
  checksum : Str
  fault_state : FaultState
  deriving DecidableEq, Repr

/-- The JSON body and status of a response to
`GET {endpoint}/{tier}/packages/{package_id}`.  Fields read with
`data['k']` are plain; fields read with `data.get('k', default)` are
optional. `text` is the raw body used in error messages. -/
structure Resp where
  status : Nat
  text : Str
  id : Str
  version : Str
  name : Str
  description : Str
  author : Str
  license : Str
  tarball_url : Str
  dependencies : Option (List Str)
  checksum : Str
  fault_state : Option Int
  error_message : Option Str

/-- A response to `GET tarball_url`: status plus content bytes. -/
structure TarResp where
  status : Nat
  content : List Nat

/-- Response to `POST {endpoint}/{tier}/subscribe`. -/
structure SubResp where
  status : Nat
  observer_id : Str

/-- `class ResolutionStrategy(Enum)` (lines 101–106). -/
inductive ResolutionStrategy where
  | EULERIAN
  | HAMILTONIAN
  | ASTAR
  | HYBRID
  deriving DecidableEq, Repr

/-- One registry endpoint/tier as the client sees it: what the remote side
answers to each request the client can issue, plus the behaviour of
`hashlib.sha256(...).hexdigest()` on artifact bytes (an external library,
modelled as an oracle). -/
structure World where
  packages : Str → Str → ResolutionStrategy → Resp
  tarballs : Str → TarResp
  sha256hex : List Nat → Str
  subscribeResp : Str → SubResp

/-! ### `Registry.fetch` (lines 132–187) -/

/-- `Registry.fetch`: 404 and non-200 checks, then the fault-state gate
(lines 168–173) — `FaultState(data.get('fault_state', 0))` followed by the
`>= SYSTEM_PANIC` comparison — and only then response parsing into a
`Package` (lines 176–187). -/
def fetch (w : World) (package_id version_range : Str)
    (strategy : ResolutionStrategy) : Except PyErr Package :=
  let r := w.packages package_id version_range strategy
  if r.status = 404 then
    .error (.resolutionError (lit "Package not found: " ++ package_id))
  else if r.status ≠ 200 then
    .error (.resolutionError (lit "Failed to fetch package: " ++ r.text))
  else do
    let fault_state ← FaultState.ofValue (r.fault_state.getD 0)
    if fault_state.isBlocking then
      .error (.resolutionError
        (lit "Package in PANIC state: " ++
          r.error_message.getD (lit "Unknown error")))
    else do
      let version ← SemverX.parse r.version
      .ok { id := r.id, version := version, name := r.name,
            description := r.description, author := r.author,
            license := r.license, tarball_url := r.tarball_url,
            dependencies := r.dependencies.getD [], checksum := r.checksum,
            fault_state := fault_state }

/-! ### `Registry._verify_checksum` (lines 265–276) -/

/-- The mismatch diagnostic built at lines 273–276; it carries both the
expected (declared) and actual (recomputed) digests. -/
def mismatchMsg (pkg : Package) (calculated : Str) : Str :=
  lit "Checksum mismatch for " ++ pkg.id ++ lit ": expected " ++
    pkg.checksum ++ lit ", got " ++ calculated

/-- `Registry._verify_checksum`: re-download the tarball, take
`sha256(...).hexdigest()` of its content, and compare to `package.checksum`
with `!=` (exact string inequality). -/
def verify_checksum (w : World) (pkg : Package) : Except PyErr Unit :=
  let tarball_data := (w.tarballs pkg.tarball_url).content
  let calculated := w.sha256hex tarball_data
  if calculated ≠ pkg.checksum then
    .error (.resolutionError (mismatchMsg pkg calculated))
  else .ok ()

/-! ### `Registry.install` (lines 189–223)

`install` is modelled with explicit recursion fuel standing for CPython's
recursion-depth limit (exhaustion is `RecursionError`), and is instrumented
with a chronological event log: one `Ev.fetch` per metadata request issued
(line 206 via `Registry.fetch`) and one `Ev.installed` per package whose
install step runs (the download/extract/print block, lines 211–216, which
happens before the dependency loop of lines 218–221).
-/

/-- Observable installation events, in program order. -/
inductive Ev where
  | fetch (package_id : Str)
  | installed (name : Str)
  deriving DecidableEq, Repr

/-- One iteration of the dependency loop of lines 218–221: if no error was
raised yet, `dep_id, dep_version = dep.split('@')` — a `ValueError` unless
the split has exactly two parts — then a recursive install via `step` (the
recursive call at one less remaining depth).  A raised error stops the loop
(no further iteration does anything). -/
def depsStep (step : Str → Str → Except PyErr Package × List Ev)
    (acc : Except PyErr Unit × List Ev) (dep : Str) : Except PyErr Unit × List Ev :=
  match acc with
  | (.error e, evs) => (.error e, evs)
  | (.ok _, evs) =>
      match splitOnChar '@' dep with
      | [dep_id, dep_version] =>
          let r := step dep_id dep_version
          (r.1.map (fun _ => ()), evs ++ r.2)
      | _ => (.error (.valueError (lit "values to unpack")), evs)

/-- The dependency loop of lines 218–221. -/
def depsRun (step : Str → Str → Except PyErr Package × List Ev)
    (deps : List Str) : Except PyErr Unit × List Ev :=
  deps.foldl (depsStep step) (.ok (), [])

/-- `Registry.install`: fetch (with the default `HYBRID` strategy of
`Registry.fetch`), optional checksum verification, tarball download with
`raise_for_status()`, the install step, then the recursive dependency loop.
Returns the result together with the event log. -/
def installGo (w : World) : Nat → Str → Str → Bool → Except PyErr Package × List Ev
  | 0, _, _, _ => (.error .recursionError, [])
  | f + 1, package_id, version_range, verify =>
      match fetch w package_id version_range .HYBRID with
      | .error e => (.error e, [.fetch package_id])
      | .ok package =>
          match (if verify then verify_checksum w package else .ok ()) with
          | .error e => (.error e, [.fetch package_id])
          | .ok _ =>
              let tr := w.tarballs package.tarball_url
              if 400 ≤ tr.status then
                (.error (.httpError package.tarball_url), [.fetch package_id])
              else
                match depsRun (fun a b => installGo w f a b verify)
                    package.dependencies with
                | (.error e, devs) =>
                    (.error e, .fetch package_id :: .installed package.name :: devs)
                | (.ok _, devs) =>
                    (.ok package, .fetch package_id :: .installed package.name :: devs)

/-- The result of `Registry.install`, forgetting the instrumentation. -/
def install (w : World) (fuel : Nat) (package_id version_range : Str)
    (verify : Bool) : Except PyErr Package :=
  (installGo w fuel package_id version_range verify).1

/-! ### `Registry.subscribe` (lines 225–255) -/

/-- The process-wide `self.observers` dict: package id → list of locally
registered callbacks.  Python callables are identified by opaque tokens. -/
abbrev ObsTable := List (Str × List Nat)

/-- Dict lookup. -/
def tblGet (t : ObsTable) (k : Str) : Option (List Nat) :=
  match t with
  | [] => none
  | (k2, v) :: rest => if k2 = k then some v else tblGet rest k

/-- Dict update (`t[k] = v`). -/
def tblSet (t : ObsTable) (k : Str) (v : List Nat) : ObsTable :=
  match t with
  | [] => [(k, v)]
  | (k2, v2) :: rest => if k2 = k then (k, v) :: rest else (k2, v2) :: tblSet rest k v

/-- `Registry.subscribe`: ensure `observers[package_id]` exists, append the
callback locally, then POST to the server; a non-200 response raises a bare
`Exception` (lines 251–252) — with the callback already appended — otherwise
the remote `observer_id` is returned. -/
def subscribe (w : World) (observers : ObsTable) (package_id : Str)
    (callback : Nat) : Except PyErr Str × ObsTable :=
  let t1 := match tblGet observers package_id with
    | none => tblSet observers package_id []
    | some _ => observers
  let t2 := tblSet t1 package_id ((tblGet t1 package_id).getD [] ++ [callback])
  let r := w.subscribeResp package_id
  if r.status ≠ 200 then
    (.error (.exception (lit "Failed to subscribe: ")), t2)
  else
    (.ok r.observer_id, t2)

/-! ## Claim C2 — fault classification -/

/-- The integer values carried by the eight named `FaultState` members. -/
def faultValues : List Int := [0, 1, 3, 5, 6, 11, 12, 17]

/-- Successful classification returns the member with exactly that value. -/
lemma FaultState.ofValue_ok {n : Int} {fs : FaultState}
    (h : FaultState.ofValue n = .ok fs) : (fs.val : Int) = n ∧ n ∈ faultValues := by
  unfold FaultState.ofValue at h
  split_ifs at h with h0 h1 h3 h5 h6 h11 h12 h17
  all_goals first
    | exact Except.noConfusion h
    | (injection h with h2; subst h2; subst_vars; decide)

/-- Classification of any integer outside the named values fails with the
enum `ValueError`. -/
lemma FaultState.ofValue_err {n : Int} (h : n ∉ faultValues) :
    FaultState.ofValue n = .error (.valueError (lit "is not a valid FaultState")) := by
  unfold FaultState.ofValue
  split_ifs <;> simp_all [faultValues]

/-- C2 (amended): `FaultState` construction from an integer (the `classify`
of the spec, line 169) succeeds exactly on the eight named values
0, 1, 3, 5, 6, 11, 12, 17, returning the member carrying that exact value —
hence monotone across successful classifications — and raises a `ValueError`
on every other integer, non-negative in-between values included; a
classified state is blocking exactly when the value is 17. -/
theorem c2_fault_classification_exact (n m : Int) (a b : FaultState) :
    ((∃ fs, FaultState.ofValue n = .ok fs) ↔ n ∈ faultValues)
    ∧ (FaultState.ofValue n = .ok a → (a.val : Int) = n)
    ∧ (FaultState.ofValue n = .ok a → FaultState.ofValue m = .ok b → n ≤ m →
        a.val ≤ b.val)
    ∧ (FaultState.ofValue n = .ok a → (a.isBlocking = true ↔ n = 17))
    ∧ (n ∉ faultValues →
        FaultState.ofValue n = .error (.valueError (lit "is not a valid FaultState"))) := by
  refine ⟨⟨fun ⟨fs, h⟩ => (FaultState.ofValue_ok h).2, fun h => ?_⟩,
    fun h => (FaultState.ofValue_ok h).1, fun ha hb hnm => ?_, fun h => ?_, fun h => ?_⟩
  · simp only [faultValues, List.mem_cons, List.not_mem_nil, or_false] at h
    rcases h with rfl | rfl | rfl | rfl | rfl | rfl | rfl | rfl
    exacts [⟨.CLEAN, by decide⟩, ⟨.LOW_WARNING, by decide⟩,
      ⟨.MEDIUM_WARNING, by decide⟩, ⟨.HIGH_WARNING, by decide⟩,
      ⟨.LOW_DANGER, by decide⟩, ⟨.CRITICAL_DANGER, by decide⟩,
      ⟨.LOW_PANIC, by decide⟩, ⟨.SYSTEM_PANIC, by decide⟩]
  · have h1 := (FaultState.ofValue_ok ha).1
    have h2 := (FaultState.ofValue_ok hb).1
    have : (a.val : Int) ≤ (b.val : Int) := by omega
    exact_mod_cast this
  · have h1 := (FaultState.ofValue_ok h).1
    cases a <;> simp_all [FaultState.isBlocking, FaultState.val] <;> omega
  · exact FaultState.ofValue_err h

/-- C2 counterexample: the claim maps 2 to `LOW_WARNING` and 16 to
`LOW_PANIC`-class (non-blocking), but the code raises `ValueError` on both
non-negative inputs. -/
theorem c2_counterexample_inbetween_values :
    FaultState.ofValue 2 = .error (.valueError (lit "is not a valid FaultState"))
    ∧ FaultState.ofValue 16 = .error (.valueError (lit "is not a valid FaultState")) := by
  decide

/-- C2 witness: the amended theorem applied at 17 (blocking) and 5 ≤ 17
(monotone). -/
theorem c2_fault_classification_witness :
    FaultState.SYSTEM_PANIC.isBlocking = true
    ∧ FaultState.HIGH_WARNING.val ≤ FaultState.SYSTEM_PANIC.val := by
  refine ⟨((c2_fault_classification_exact 17 17 .SYSTEM_PANIC .SYSTEM_PANIC).2.2.2.1
      (by decide)).mpr rfl,
    (c2_fault_classification_exact 5 17 .HIGH_WARNING .SYSTEM_PANIC).2.2.1
      (by decide) (by decide) (by decide)⟩

/-! ## Claim C8 — the shape accepted by `SemverX.parse` -/

/-- Reduce a bind whose first step already succeeded. -/
lemma ok_bind {α β : Type} (a : α) (f : α → Except PyErr β) :
    (Except.ok a >>= f) = f a := rfl

/-- Reduce a bind whose first step already failed. -/
lemma error_bind {α β : Type} (e : PyErr) (f : α → Except PyErr β) :
    ((Except.error e : Except PyErr α) >>= f) = .error e := rfl

/-- Invert a successful bind. -/
lemma except_bind_ok {α β : Type} {x : Except PyErr α} {f : α → Except PyErr β}
    {b : β} (h : (x >>= f) = .ok b) : ∃ a, x = .ok a ∧ f a = .ok b := by
  cases x with
  | error e => exact Except.noConfusion h
  | ok a => exact ⟨a, rfl, h⟩

/-- The token shape accepted by Python `int()`: after stripping whitespace,
an optional sign followed by one or more decimal digits (any Unicode Nd
digit) with single underscores allowed between digits. -/
def numericTok (l : Str) : Bool :=
  match pyStrip l with
  | [] => false
  | c :: rest =>
      if c = '-' then (pyDigits rest).isSome
      else if c = '+' then (pyDigits rest).isSome
      else (pyDigits (c :: rest)).isSome

/-- A valid version-state token. -/
def stateTok (l : Str) : Prop :=
  l = lit "stable" ∨ l = lit "legacy" ∨ l = lit "experimental"

instance (l : Str) : Decidable (stateTok l) := by
  unfold stateTok; infer_instance

/-- The exact class of texts accepted by `SemverX.parse`: six dot-separated
tokens, numeric at even positions, state tokens at odd positions. -/
def validShape (s : Str) : Prop :=
  match splitOnChar '.' s with
  | [p0, p1, p2, p3, p4, p5] =>
      numericTok p0 = true ∧ stateTok p1 ∧ numericTok p2 = true ∧ stateTok p3
      ∧ numericTok p4 = true ∧ stateTok p5
  | _ => False

instance (s : Str) : Decidable (validShape s) := by
  unfold validShape; split <;> infer_instance

/-- `pyInt` succeeds exactly on `numericTok` tokens. -/
lemma pyInt_ok (l : Str) : (∃ k, pyInt l = .ok k) ↔ numericTok l = true := by
  cases hps : pyStrip l with
  | nil => simp [pyInt, numericTok, hps]
  | cons c rest =>
      simp only [pyInt, numericTok, hps]
      split_ifs
      · cases hpd : pyDigits rest <;> simp [hpd]
      · cases hpd : pyDigits rest <;> simp [hpd]
      · cases hpd : pyDigits (c :: rest) <;> simp [hpd]

/-- `pyInt` raises `ValueError` on every other token. -/
lemma pyInt_err (l : Str) (h : ¬ numericTok l = true) :
    pyInt l = .error (.valueError (lit "invalid literal for int")) := by
  cases hps : pyStrip l with
  | nil => simp [pyInt, hps]
  | cons c rest =>
      simp only [numericTok, hps] at h
      simp only [pyInt, hps]
      split_ifs at h ⊢
      · cases hpd : pyDigits rest <;> simp_all [hpd]
      · cases hpd : pyDigits rest <;> simp_all [hpd]
      · cases hpd : pyDigits (c :: rest) <;> simp_all [hpd]

/-- `VersionState` lookup succeeds exactly on the three state tokens. -/
lemma state_ok (l : Str) : (∃ st, VersionState.ofValue l = .ok st) ↔ stateTok l := by
  unfold VersionState.ofValue stateTok
  split_ifs <;> simp_all

/-- `VersionState` lookup raises `ValueError` on every other token. -/
lemma state_err (l : Str) (h : ¬ stateTok l) :
    VersionState.ofValue l = .error (.valueError (lit "is not a valid VersionState")) := by
  unfold stateTok at h
  unfold VersionState.ofValue
  split_ifs <;> simp_all

/-- C8: `SemverX.parse` succeeds exactly on texts that split on `.` into six
tokens with `int()`-numeric tokens at even positions — an optional sign and
one or more decimal digits (any Unicode Nd digit, single underscores allowed
between digits), surrounded by optional whitespace — and valid state tokens
at odd positions; on every other input it raises a `ValueError` (the typed
parse failure) and returns no version value. -/
theorem c8_parse_shape_characterisation (s : Str) :
    ((∃ v, SemverX.parse s = .ok v) ↔ validShape s)
    ∧ (¬ validShape s → ∃ m, SemverX.parse s = .error (.valueError m)) := by
  unfold SemverX.parse validShape
  rcases hsp : splitOnChar '.' s with _ | ⟨p0, _ | ⟨p1, _ | ⟨p2, _ | ⟨p3, _ |
    ⟨p4, _ | ⟨p5, _ | ⟨p6, rest⟩⟩⟩⟩⟩⟩⟩
  case cons.cons.cons.cons.cons.cons.nil =>
    constructor
    · constructor
      · rintro ⟨v, hv⟩
        obtain ⟨k0, hk0, hv⟩ := except_bind_ok hv
        obtain ⟨s1, hs1, hv⟩ := except_bind_ok hv
        obtain ⟨k2, hk2, hv⟩ := except_bind_ok hv
        obtain ⟨s3, hs3, hv⟩ := except_bind_ok hv
        obtain ⟨k4, hk4, hv⟩ := except_bind_ok hv
        obtain ⟨s5, hs5, hv⟩ := except_bind_ok hv
        exact ⟨(pyInt_ok p0).mp ⟨k0, hk0⟩, (state_ok p1).mp ⟨s1, hs1⟩,
          (pyInt_ok p2).mp ⟨k2, hk2⟩, (state_ok p3).mp ⟨s3, hs3⟩,
          (pyInt_ok p4).mp ⟨k4, hk4⟩, (state_ok p5).mp ⟨s5, hs5⟩⟩
      · rintro ⟨h0, h1, h2, h3, h4, h5⟩
        obtain ⟨k0, hk0⟩ := (pyInt_ok p0).mpr h0
        obtain ⟨s1, hs1⟩ := (state_ok p1).mpr h1
        obtain ⟨k2, hk2⟩ := (pyInt_ok p2).mpr h2
        obtain ⟨s3, hs3⟩ := (state_ok p3).mpr h3
        obtain ⟨k4, hk4⟩ := (pyInt_ok p4).mpr h4
        obtain ⟨s5, hs5⟩ := (state_ok p5).mpr h5
        refine ⟨⟨k0, s1, k2, s3, k4, s5⟩, ?_⟩
        simp only [hk0, hs1, hk2, hs3, hk4, hs5, ok_bind]
    · intro hns
      by_cases h0 : numericTok p0 = true
      · obtain ⟨k0, hk0⟩ := (pyInt_ok p0).mpr h0
        by_cases h1 : stateTok p1
        · obtain ⟨s1, hs1⟩ := (state_ok p1).mpr h1
          by_cases h2 : numericTok p2 = true
          · obtain ⟨k2, hk2⟩ := (pyInt_ok p2).mpr h2
            by_cases h3 : stateTok p3
            · obtain ⟨s3, hs3⟩ := (state_ok p3).mpr h3
              by_cases h4 : numericTok p4 = true
              · obtain ⟨k4, hk4⟩ := (pyInt_ok p4).mpr h4
                by_cases h5 : stateTok p5
                · exact absurd ⟨h0, h1, h2, h3, h4, h5⟩ hns
                · refine ⟨lit "is not a valid VersionState", ?_⟩
                  simp only [hk0, hs1, hk2, hs3, hk4, ok_bind, state_err p5 h5,
                    error_bind]
              · refine ⟨lit "invalid literal for int", ?_⟩
                simp only [hk0, hs1, hk2, hs3, ok_bind, pyInt_err p4 h4, error_bind]
            · refine ⟨lit "is not a valid VersionState", ?_⟩
              simp only [hk0, hs1, hk2, ok_bind, state_err p3 h3, error_bind]
          · refine ⟨lit "invalid literal for int", ?_⟩
            simp only [hk0, hs1, ok_bind, pyInt_err p2 h2, error_bind]
        · refine ⟨lit "is not a valid VersionState", ?_⟩
          simp only [hk0, ok_bind, state_err p1 h1, error_bind]
      · refine ⟨lit "invalid literal for int", ?_⟩
        simp only [pyInt_err p0 h0, error_bind]
  all_goals exact ⟨iff_of_false (by rintro ⟨v, hv⟩; exact Except.noConfusion hv)
    not_false, fun _ => ⟨_, rfl⟩⟩

/-- C8 witness: the characterisation applied at a plain accepted text, at
texts exercising `int()`'s whitespace stripping, underscore separators and
non-ASCII (Arabic-Indic) digits, and at a rejected five-token text. -/
theorem c8_parse_witness :
    (∃ v, SemverX.parse (lit "2.stable.1.stable.0.stable") = .ok v)
    ∧ (∃ v, SemverX.parse (lit " 1.stable.0.stable.1_0.stable") = .ok v)
    ∧ (∃ v, SemverX.parse (lit "١٢.stable.0.stable.0.stable") = .ok v)
    ∧ (∃ m, SemverX.parse (lit "2.stable.1.stable.0") = .error (.valueError m)) :=
  ⟨(c8_parse_shape_characterisation (lit "2.stable.1.stable.0.stable")).1.mpr
      (by decide),
   (c8_parse_shape_characterisation (lit " 1.stable.0.stable.1_0.stable")).1.mpr
      (by decide),
   (c8_parse_shape_characterisation (lit "١٢.stable.0.stable.0.stable")).1.mpr
      (by decide),
   (c8_parse_shape_characterisation (lit "2.stable.1.stable.0")).2 (by decide)⟩

/-! ## Claim C7 — round-trip laws between `parse` and `__str__` -/

lemma digitVal_digitChar {n : Nat} (h : n < 10) : digitVal (digitChar n) = n := by
  interval_cases n <;> decide

lemma isDigitC_digitChar {n : Nat} (h : n < 10) : isDigitC (digitChar n) = true := by
  interval_cases n <;> decide

lemma digitChar_ne_zero {n : Nat} (h1 : 0 < n) (h2 : n < 10) : digitChar n ≠ '0' := by
  interval_cases n <;> decide

lemma digitChar_digitVal {c : Char} (h : isDigitC c = true) :
    digitChar (digitVal c) = c := by
  simp only [isDigitC, Bool.and_eq_true, decide_eq_true_eq] at h
  unfold digitChar digitVal
  rw [Nat.sub_add_cancel h.1]
  exact Char.ofNat_toNat c

lemma digitVal_lt_ten {c : Char} (h : isDigitC c = true) : digitVal c < 10 := by
  simp only [isDigitC, Bool.and_eq_true, decide_eq_true_eq] at h
  unfold digitVal
  omega

lemma digitVal_pos {c : Char} (h : isDigitC c = true) (hz : c ≠ '0') :
    0 < digitVal c := by
  simp only [isDigitC, Bool.and_eq_true, decide_eq_true_eq] at h
  unfold digitVal
  rcases Nat.lt_or_ge 48 c.toNat with h1 | h1
  · omega
  · exfalso
    apply hz
    have : c.toNat = 48 := by omega
    have := congrArg Char.ofNat this
    rwa [Char.ofNat_toNat] at this

lemma natFromDigits_append (xs : Str) (c : Char) :
    natFromDigits (xs ++ [c]) = 10 * natFromDigits xs + digitVal c := by
  simp [natFromDigits, List.foldl_append]

lemma natFromDigits_cons (c : Char) (xs : Str) :
    natFromDigits (c :: xs) = xs.foldl (fun a d => 10 * a + digitVal d) (digitVal c) := by
  simp [natFromDigits]

lemma foldl_digits_ge (xs : Str) (a : Nat) :
    a ≤ xs.foldl (fun a d => 10 * a + digitVal d) a := by
  induction xs generalizing a with
  | nil => exact Nat.le_refl a
  | cons d rest ih =>
      calc a ≤ 10 * a + digitVal d := by omega
        _ ≤ _ := ih _

lemma natFromDigits_pos {xs : Str} (hne : xs ≠ []) (hd : ∀ c ∈ xs, isDigitC c = true)
    (hz : xs.head? ≠ some '0') : 0 < natFromDigits xs := by
  cases xs with
  | nil => exact absurd rfl hne
  | cons c rest =>
      rw [natFromDigits_cons]
      have hc : isDigitC c = true := hd c (List.mem_cons_self c rest)
      have : 0 < digitVal c := digitVal_pos hc (by intro h; exact hz (by rw [h]; rfl))
      exact Nat.lt_of_lt_of_le this (foldl_digits_ge rest _)

lemma natToDigitsCore_acc (f : Nat) : ∀ (n : Nat) (acc : Str),
    natToDigitsCore f n acc = natToDigitsCore f n [] ++ acc := by
  induction f with
  | zero => intro n acc; rfl
  | succ f ih =>
      intro n acc
      by_cases h : n < 10
      · simp [natToDigitsCore, h]
      · simp only [natToDigitsCore, if_neg h]
        rw [ih (n / 10) (digitChar (n % 10) :: acc),
          ih (n / 10) [digitChar (n % 10)], List.append_assoc]
        rfl

lemma natToDigitsCore_fuel (f : Nat) : ∀ (g n : Nat), n < f → n < g →
    natToDigitsCore f n [] = natToDigitsCore g n [] := by
  induction f with
  | zero => intro g n h; omega
  | succ f ih =>
      intro g n hf hg
      cases g with
      | zero => omega
      | succ g =>
          by_cases h : n < 10
          · simp [natToDigitsCore, h]
          · simp only [natToDigitsCore, if_neg h]
            have hdiv : n / 10 < n := Nat.div_lt_self (by omega) (by omega)
            rw [natToDigitsCore_acc f, natToDigitsCore_acc g,
              ih g (n / 10) (by omega) (by omega)]

lemma natToDigits_small {n : Nat} (h : n < 10) : natToDigits n = [digitChar n] := by
  simp [natToDigits, natToDigitsCore, h]

lemma natToDigits_step {n : Nat} (h : 10 ≤ n) :
    natToDigits n = natToDigits (n / 10) ++ [digitChar (n % 10)] := by
  have hdiv : n / 10 < n := Nat.div_lt_self (by omega) (by omega)
  unfold natToDigits
  rw [show natToDigitsCore (n + 1) n [] =
      natToDigitsCore n (n / 10) [digitChar (n % 10)] by
        simp [natToDigitsCore, Nat.not_lt.mpr h],
    natToDigitsCore_acc, natToDigitsCore_fuel n (n / 10 + 1) (n / 10) (by omega) (by omega)]

lemma natFromDigits_natToDigits (n : Nat) : natFromDigits (natToDigits n) = n := by
  induction n using Nat.strong_induction_on with
  | _ n ih =>
      by_cases h : n < 10
      · rw [natToDigits_small h]
        show 10 * 0 + digitVal (digitChar n) = n
        rw [digitVal_digitChar h]
        omega
      · have h10 : 10 ≤ n := Nat.le_of_not_lt h
        have hdiv : n / 10 < n := Nat.div_lt_self (by omega) (by omega)
        rw [natToDigits_step h10, natFromDigits_append, ih (n / 10) hdiv,
          digitVal_digitChar (Nat.mod_lt n (by omega))]
        exact Nat.div_add_mod n 10

lemma natToDigits_ne_nil (n : Nat) : natToDigits n ≠ [] := by
  by_cases h : n < 10
  · rw [natToDigits_small h]; simp
  · rw [natToDigits_step (Nat.le_of_not_lt h)]; simp

lemma natToDigits_all_digits (n : Nat) : ∀ c ∈ natToDigits n, isDigitC c = true := by
  induction n using Nat.strong_induction_on with
  | _ n ih =>
      by_cases h : n < 10
      · rw [natToDigits_small h]
        intro c hc
        rw [List.mem_singleton] at hc
        rw [hc]
        exact isDigitC_digitChar h
      · have hdiv : n / 10 < n := Nat.div_lt_self (by omega) (by omega)
        rw [natToDigits_step (Nat.le_of_not_lt h)]
        intro c hc
        rcases List.mem_append.mp hc with h1 | h1
        · exact ih (n / 10) hdiv c h1
        · rw [List.mem_singleton] at h1
          rw [h1]
          exact isDigitC_digitChar (Nat.mod_lt n (by omega))

lemma natToDigits_head_ne_zero {n : Nat} (hn : n ≠ 0) :
    (natToDigits n).head? ≠ some '0' := by
  induction n using Nat.strong_induction_on with
  | _ n ih =>
      by_cases h : n < 10
      · rw [natToDigits_small h]
        intro hc
        rw [List.head?_cons, Option.some_inj] at hc
        exact digitChar_ne_zero (Nat.pos_of_ne_zero hn) h hc
      · have h10 : 10 ≤ n := Nat.le_of_not_lt h
        have hdiv : n / 10 < n := Nat.div_lt_self (by omega) (by omega)
        have hne : n / 10 ≠ 0 := by
          have := Nat.div_le_div_right (c := 10) h10
          simpa using Nat.one_le_iff_ne_zero.mp (by
            calc 1 = 10 / 10 := rfl
              _ ≤ n / 10 := Nat.div_le_div_right h10)
        obtain ⟨d, ds, hds⟩ := List.exists_cons_of_ne_nil (natToDigits_ne_nil (n / 10))
        rw [natToDigits_step h10, hds]
        have := ih (n / 10) hdiv hne
        rw [hds] at this
        simpa using this

/-- A nonempty all-digit string with no redundant leading zero is exactly the
canonical rendering of its value. -/
lemma natToDigits_natFromDigits (ds : Str) (hd : ∀ c ∈ ds, isDigitC c = true)
    (hne : ds ≠ []) (hz : ds.head? ≠ some '0' ∨ ds = ['0']) :
    natToDigits (natFromDigits ds) = ds := by
  induction ds using List.reverseRecOn with
  | nil => exact absurd rfl hne
  | append_singleton xs c ih =>
      have hc : isDigitC c = true := hd c (by simp)
      by_cases hxs : xs = []
      · subst hxs
        have hlt : digitVal c < 10 := digitVal_lt_ten hc
        have hv : natFromDigits ([] ++ [c]) = digitVal c := by
          simp [natFromDigits]
        rw [hv, natToDigits_small hlt, digitChar_digitVal hc]
        rfl
      · obtain ⟨x, xt, hxt⟩ := List.exists_cons_of_ne_nil hxs
        have hz0 : (xs ++ [c]).head? ≠ some '0' := by
          rcases hz with h | h
          · exact h
          · exfalso
            have : (xs ++ [c]).length = 1 := by rw [h]; rfl
            rw [List.length_append, List.length_singleton] at this
            have : xs.length = 0 := by omega
            exact hxs (List.eq_nil_of_length_eq_zero this)
        have hhz : xs.head? ≠ some '0' := by
          rw [hxt] at hz0 ⊢
          simpa using hz0
        have hdx : ∀ d ∈ xs, isDigitC d = true :=
          fun d hdm => hd d (List.mem_append_left _ hdm)
        have hm : 0 < natFromDigits xs := natFromDigits_pos hxs hdx hhz
        have hn : natFromDigits (xs ++ [c]) = 10 * natFromDigits xs + digitVal c :=
          natFromDigits_append xs c
        have h10 : 10 ≤ natFromDigits (xs ++ [c]) := by rw [hn]; omega
        have hq : natFromDigits (xs ++ [c]) / 10 = natFromDigits xs := by
          rw [hn, Nat.mul_add_div (by omega), Nat.div_eq_of_lt (digitVal_lt_ten hc)]
          omega
        have hr : natFromDigits (xs ++ [c]) % 10 = digitVal c := by
          rw [hn, Nat.mul_add_mod, Nat.mod_eq_of_lt (digitVal_lt_ten hc)]
        rw [natToDigits_step h10, hq, hr, ih hdx hxs (Or.inl hhz),
          digitChar_digitVal hc]

lemma isDigitC_ne_dot {c : Char} (h : isDigitC c = true) : c ≠ '.' := by
  intro hc
  rw [hc] at h
  exact absurd h (by decide)

lemma isDigitC_ne_minus {c : Char} (h : isDigitC c = true) : c ≠ '-' := by
  intro hc
  rw [hc] at h
  exact absurd h (by decide)

lemma isDigitC_ne_plus {c : Char} (h : isDigitC c = true) : c ≠ '+' := by
  intro hc
  rw [hc] at h
  exact absurd h (by decide)

lemma isDigitC_ne_underscore {c : Char} (h : isDigitC c = true) : c ≠ '_' := by
  intro hc
  rw [hc] at h
  exact absurd h (by decide)

lemma isDigitC_not_pySpace {c : Char} (h : isDigitC c = true) :
    isPySpace c = false := by
  simp only [isDigitC, Bool.and_eq_true, decide_eq_true_eq] at h
  rw [isPySpace, decide_eq_false_iff_not]
  intro hm
  simp only [pySpaceCodes, List.mem_cons, List.not_mem_nil, or_false] at hm
  omega

lemma dropWhile_eq_self_of {p : Char → Bool} {l : Str}
    (h : ∀ c ∈ l, p c = false) : l.dropWhile p = l := by
  cases l with
  | nil => rfl
  | cons c rest => simp [List.dropWhile_cons, h c (List.mem_cons_self c rest)]

lemma pyStrip_eq_self {l : Str} (h : ∀ c ∈ l, isPySpace c = false) :
    pyStrip l = l := by
  unfold pyStrip
  rw [dropWhile_eq_self_of h,
    dropWhile_eq_self_of (fun c hc => h c (List.mem_reverse.mp hc)),
    List.reverse_reverse]

/-- On ASCII digits the Unicode decimal table gives the usual value (48 is
the first entry of `ndBases`, and no other run overlaps 48–57). -/
lemma decDigit?_ascii {c : Char} (h : isDigitC c = true) :
    decDigit? c = some (digitVal c) := by
  have h2 : (decide (48 ≤ c.toNat) && decide (c.toNat < 48 + 10)) = true := by
    simp only [isDigitC, Bool.and_eq_true, decide_eq_true_eq] at h
    simp only [Bool.and_eq_true, decide_eq_true_eq]
    omega
  unfold decDigit?
  rw [show ndBases = 48 :: ndBases.tail from rfl, List.find?_cons, h2]
  rfl

lemma pyDigitsRest_digits (l : Str) (acc : Nat)
    (h : ∀ c ∈ l, isDigitC c = true) :
    pyDigitsRest acc l = some (l.foldl (fun a c => 10 * a + digitVal c) acc) := by
  induction l generalizing acc with
  | nil => rfl
  | cons c rest ih =>
      have hc : isDigitC c = true := h c (List.mem_cons_self c rest)
      cases rest with
      | nil =>
          simp only [pyDigitsRest, if_neg (isDigitC_ne_underscore hc),
            decDigit?_ascii hc, List.foldl_cons, List.foldl_nil]
      | cons c2 rest2 =>
          simp only [pyDigitsRest, if_neg (isDigitC_ne_underscore hc),
            decDigit?_ascii hc, List.foldl_cons]
          exact ih (10 * acc + digitVal c)
            (fun d hd => h d (List.mem_cons_of_mem c hd))

/-- A nonempty underscore-free ASCII digit string is accepted with its
value. -/
lemma pyDigits_digits {l : Str} (hne : l ≠ []) (h : ∀ c ∈ l, isDigitC c = true) :
    pyDigits l = some (natFromDigits l) := by
  cases l with
  | nil => exact absurd rfl hne
  | cons c rest =>
      have hc : isDigitC c = true := h c (List.mem_cons_self c rest)
      simp only [pyDigits, decDigit?_ascii hc]
      rw [pyDigitsRest_digits rest (digitVal c)
        (fun d hd => h d (List.mem_cons_of_mem c hd)), natFromDigits_cons]

lemma intToStr_not_space (n : Int) : ∀ c ∈ intToStr n, isPySpace c = false := by
  intro c hc
  unfold intToStr at hc
  split_ifs at hc with h
  · rcases List.mem_cons.mp hc with h1 | h1
    · rw [h1]; decide
    · exact isDigitC_not_pySpace (natToDigits_all_digits _ c h1)
  · exact isDigitC_not_pySpace (natToDigits_all_digits _ c hc)

/-- `int(str(n)) == n` for every Python integer. -/
lemma pyInt_intToStr (n : Int) : pyInt (intToStr n) = .ok n := by
  have hstrip : pyStrip (intToStr n) = intToStr n :=
    pyStrip_eq_self (intToStr_not_space n)
  by_cases h : n < 0
  · have hi : intToStr n = '-' :: natToDigits n.natAbs := by
      rw [intToStr, if_pos h]
    rw [hi] at hstrip
    simp only [pyInt, hi, hstrip, if_true,
      pyDigits_digits (natToDigits_ne_nil _) (natToDigits_all_digits _),
      natFromDigits_natToDigits]
    congr 1
    omega
  · have hi : intToStr n = natToDigits n.toNat := by
      rw [intToStr, if_neg h]
    obtain ⟨d, ds, hds⟩ := List.exists_cons_of_ne_nil (natToDigits_ne_nil n.toNat)
    have hd : isDigitC d = true := by
      apply natToDigits_all_digits n.toNat
      rw [hds]
      exact List.mem_cons_self d ds
    rw [hi, hds] at hstrip
    simp only [pyInt, hi, hds, hstrip, if_neg (isDigitC_ne_minus hd),
      if_neg (isDigitC_ne_plus hd)]
    rw [← hds]
    simp only [pyDigits_digits (natToDigits_ne_nil n.toNat)
      (natToDigits_all_digits n.toNat), natFromDigits_natToDigits]
    congr 1
    omega

lemma intToStr_no_dot (n : Int) : ∀ c ∈ intToStr n, c ≠ '.' := by
  intro c hc
  unfold intToStr at hc
  split_ifs at hc with h
  · rcases List.mem_cons.mp hc with h1 | h1
    · rw [h1]; decide
    · exact isDigitC_ne_dot (natToDigits_all_digits _ c h1)
  · exact isDigitC_ne_dot (natToDigits_all_digits _ c hc)

lemma splitOnChar_ne_nil (sep : Char) (l : Str) : splitOnChar sep l ≠ [] := by
  cases l with
  | nil => simp [splitOnChar]
  | cons c rest =>
      simp only [splitOnChar]
      cases splitOnChar sep rest with
      | nil => simp
      | cons t ts => split_ifs <;> simp

lemma splitOnChar_no_sep {sep : Char} {l : Str} (h : ∀ c ∈ l, c ≠ sep) :
    splitOnChar sep l = [l] := by
  induction l with
  | nil => rfl
  | cons c rest ih =>
      have hc : c ≠ sep := h c (List.mem_cons_self c rest)
      have hrest := ih (fun d hd => h d (List.mem_cons_of_mem c hd))
      simp only [splitOnChar, hrest, if_neg hc]

lemma splitOnChar_append {sep : Char} {a rest : Str} (h : ∀ c ∈ a, c ≠ sep) :
    splitOnChar sep (a ++ sep :: rest) = a :: splitOnChar sep rest := by
  induction a with
  | nil =>
      simp only [List.nil_append, splitOnChar]
      obtain ⟨t, ts, hts⟩ := List.exists_cons_of_ne_nil (splitOnChar_ne_nil sep rest)
      rw [hts]
      simp
  | cons c at' ih =>
      have hc : c ≠ sep := h c (List.mem_cons_self c at')
      have hrec := ih (fun d hd => h d (List.mem_cons_of_mem c hd))
      simp only [List.cons_append, splitOnChar, List.append_eq, hrec, if_neg hc]

lemma joinChar_splitOnChar (sep : Char) (l : Str) :
    joinChar sep (splitOnChar sep l) = l := by
  induction l with
  | nil => rfl
  | cons c rest ih =>
      obtain ⟨t, ts, hts⟩ := List.exists_cons_of_ne_nil (splitOnChar_ne_nil sep rest)
      rw [hts] at ih
      simp only [splitOnChar, hts]
      by_cases hc : c = sep
      · rw [if_pos hc, hc]
        show sep :: joinChar sep (t :: ts) = sep :: rest
        rw [ih]
      · rw [if_neg hc]
        cases ts with
        | nil =>
            show c :: t = c :: rest
            have : t = rest := ih
            rw [this]
        | cons u us =>
            show (c :: t) ++ sep :: joinChar sep (u :: us) = c :: rest
            rw [List.cons_append, ← ih]
            rfl

lemma state_value_ofValue (st : VersionState) :
    VersionState.ofValue st.value = .ok st := by
  cases st <;> decide

lemma state_value_no_dot (st : VersionState) : ∀ c ∈ st.value, c ≠ '.' := by
  cases st <;> decide

/-- `parse` is a left inverse of `__str__` on every `SemverX` value. -/
lemma parse_toStr (v : SemverX) : SemverX.parse v.toStr = .ok v := by
  have hsplit : splitOnChar '.' v.toStr =
      [intToStr v.major, v.major_state.value, intToStr v.minor,
       v.minor_state.value, intToStr v.patch, v.patch_state.value] := by
    unfold SemverX.toStr
    rw [splitOnChar_append (intToStr_no_dot _),
      splitOnChar_append (state_value_no_dot _),
      splitOnChar_append (intToStr_no_dot _),
      splitOnChar_append (state_value_no_dot _),
      splitOnChar_append (intToStr_no_dot _),
      splitOnChar_no_sep (state_value_no_dot _)]
  simp only [SemverX.parse, hsplit, pyInt_intToStr, state_value_ofValue, ok_bind]

/-- A canonical numeric token: all digits, nonempty, and no redundant
leading zero. -/
def canonNum (l : Str) : Prop :=
  (∀ c ∈ l, isDigitC c = true) ∧ l ≠ [] ∧ (l.head? ≠ some '0' ∨ l = ['0'])

instance (l : Str) : Decidable (canonNum l) := by
  unfold canonNum; infer_instance

/-- A canonical six-slot version text: six dot-separated tokens, canonical
numerals at even positions, state tokens at odd positions. -/
def canonSix (s : Str) : Prop :=
  match splitOnChar '.' s with
  | [p0, p1, p2, p3, p4, p5] =>
      canonNum p0 ∧ stateTok p1 ∧ canonNum p2 ∧ stateTok p3
      ∧ canonNum p4 ∧ stateTok p5
  | _ => False

instance (s : Str) : Decidable (canonSix s) := by
  unfold canonSix; split <;> infer_instance

lemma canonNum_pyInt {l : Str} (h : canonNum l) :
    pyInt l = .ok (natFromDigits l) ∧ intToStr (natFromDigits l) = l := by
  obtain ⟨hd, hne, hz⟩ := h
  obtain ⟨c, rest, hc⟩ := List.exists_cons_of_ne_nil hne
  subst hc
  have hcd : isDigitC c = true := hd c (List.mem_cons_self c rest)
  have hstrip : pyStrip (c :: rest) = c :: rest :=
    pyStrip_eq_self (fun d hdm => isDigitC_not_pySpace (hd d hdm))
  constructor
  · simp only [pyInt, hstrip, if_neg (isDigitC_ne_minus hcd),
      if_neg (isDigitC_ne_plus hcd),
      pyDigits_digits (List.cons_ne_nil c rest) hd]
  · rw [intToStr, if_neg (by omega : ¬((natFromDigits (c :: rest) : Int) < 0)),
      Int.toNat_natCast]
    exact natToDigits_natFromDigits _ hd hne hz

lemma stateTok_value {l : Str} (h : stateTok l) :
    ∃ st : VersionState, st.value = l := by
  rcases h with rfl | rfl | rfl
  exacts [⟨.STABLE, rfl⟩, ⟨.LEGACY, rfl⟩, ⟨.EXPERIMENTAL, rfl⟩]

/-- C7 (amended): `parse(format(v)) == v` holds for every version value, and
`format(parse(s)) == s` holds for every six-slot text whose numeric tokens
are canonical decimal numerals (no leading zeros, sign, or whitespace);
texts with non-canonical numerals parse successfully but re-format to the
canonical text, so the textual round-trip fails there. -/
theorem c7_roundtrip_amended :
    (∀ v : SemverX, SemverX.parse v.toStr = .ok v)
    ∧ (∀ s : Str, canonSix s → ∃ v, SemverX.parse s = .ok v ∧ v.toStr = s) := by
  refine ⟨parse_toStr, fun s hs => ?_⟩
  unfold canonSix at hs
  rcases hsp : splitOnChar '.' s with _ | ⟨p0, _ | ⟨p1, _ | ⟨p2, _ | ⟨p3, _ |
    ⟨p4, _ | ⟨p5, _ | ⟨p6, rest⟩⟩⟩⟩⟩⟩⟩ <;> rw [hsp] at hs <;> try exact hs.elim
  have hs6 : canonNum p0 ∧ stateTok p1 ∧ canonNum p2 ∧ stateTok p3
      ∧ canonNum p4 ∧ stateTok p5 := hs
  obtain ⟨h0, h1, h2, h3, h4, h5⟩ := hs6
  obtain ⟨st1, hst1⟩ := stateTok_value h1
  obtain ⟨st3, hst3⟩ := stateTok_value h3
  obtain ⟨st5, hst5⟩ := stateTok_value h5
  refine ⟨⟨(natFromDigits p0 : Int), st1, (natFromDigits p2 : Int), st3,
    (natFromDigits p4 : Int), st5⟩, ?_, ?_⟩
  · simp only [SemverX.parse, hsp, (canonNum_pyInt h0).1, (canonNum_pyInt h2).1,
      (canonNum_pyInt h4).1, ← hst1, ← hst3, ← hst5, state_value_ofValue, ok_bind]
  · have hjoin : s = p0 ++ '.' :: (p1 ++ '.' :: (p2 ++ '.' :: (p3 ++ '.' ::
        (p4 ++ '.' :: p5)))) := by
      conv_lhs => rw [← joinChar_splitOnChar '.' s, hsp]
      rfl
    show intToStr (natFromDigits p0 : Int) ++ '.' :: (st1.value ++
      '.' :: (intToStr (natFromDigits p2 : Int) ++ '.' :: (st3.value ++
      '.' :: (intToStr (natFromDigits p4 : Int) ++ '.' :: st5.value)))) = s
    rw [(canonNum_pyInt h0).2, (canonNum_pyInt h2).2, (canonNum_pyInt h4).2,
      hst1, hst3, hst5, hjoin]

/-- C7 counterexample: `"01.stable.0.stable.0.stable"` is a six-slot text the
parser accepts (`int("01") == 1`), but formatting the parsed value yields the
distinct text `"1.stable.0.stable.0.stable"`, so `format(parse(s)) == s`
fails on it. -/
theorem c7_counterexample_leading_zero :
    SemverX.parse (lit "01.stable.0.stable.0.stable") =
      .ok ⟨1, .STABLE, 0, .STABLE, 0, .STABLE⟩
    ∧ SemverX.toStr ⟨1, .STABLE, 0, .STABLE, 0, .STABLE⟩ ≠
        lit "01.stable.0.stable.0.stable" := by
  decide

/-- C7 witness: the amended round-trip applied at a concrete version value
and a concrete canonical text. -/
theorem c7_roundtrip_witness :
    SemverX.parse (SemverX.toStr ⟨2, .STABLE, 1, .LEGACY, 0, .EXPERIMENTAL⟩) =
      .ok ⟨2, .STABLE, 1, .LEGACY, 0, .EXPERIMENTAL⟩
    ∧ ∃ v, SemverX.parse (lit "2.stable.1.stable.0.stable") = .ok v
        ∧ v.toStr = lit "2.stable.1.stable.0.stable" :=
  ⟨c7_roundtrip_amended.1 ⟨2, .STABLE, 1, .LEGACY, 0, .EXPERIMENTAL⟩,
   c7_roundtrip_amended.2 (lit "2.stable.1.stable.0.stable") (by decide)⟩

/-! ## Claim C1 — blocking fault states abort before any dependency fetch -/

/-- A 200 response whose fault-state field is exactly 17 makes `fetch` raise
the PANIC `ResolutionError` of lines 170–173, before response parsing. -/
lemma fetch_panic {w : World} {pid range : Str} {strat : ResolutionStrategy}
    (h200 : (w.packages pid range strat).status = 200)
    (h17 : (w.packages pid range strat).fault_state.getD 0 = 17) :
    fetch w pid range strat = .error (.resolutionError
      (lit "Package in PANIC state: " ++
        (w.packages pid range strat).error_message.getD (lit "Unknown error"))) := by
  simp only [fetch]
  rw [h200, h17]
  norm_num
  rfl

/-- A 200 response whose fault-state field is no named `FaultState` value
makes `fetch` raise the `ValueError` of enum construction (line 169). -/
lemma fetch_invalid_fault {w : World} {pid range : Str} {strat : ResolutionStrategy}
    (h200 : (w.packages pid range strat).status = 200)
    (hv : (w.packages pid range strat).fault_state.getD 0 ∉ faultValues) :
    fetch w pid range strat = .error (.valueError (lit "is not a valid FaultState")) := by
  have herr := FaultState.ofValue_err hv
  simp only [fetch]
  rw [h200, herr]
  norm_num
  rfl

/-- When the root fetch fails, `install` stops with that error having issued
exactly one fetch and no install step. -/
lemma installGo_fetch_error {w : World} {f : Nat} {pid range : Str}
    {verify : Bool} {e : PyErr} (h : fetch w pid range .HYBRID = .error e) :
    installGo w (f + 1) pid range verify = (.error e, [.fetch pid]) := by
  simp only [installGo, h]

/-- C1: a fetched package whose fault-state value is ≥ `SYSTEM_PANIC` (17)
never yields a success — with the value 17, the only `FaultState` value
≥ 17, `fetch` fails with the PANIC-typed `ResolutionError`; with a raw wire
value above 17 it fails with the enum `ValueError` — and `install` on such a
root stops with that error after the single root fetch: no dependency of the
package is fetched or installed. -/
theorem c1_panic_blocks_before_dependencies (w : World) (pid range : Str)
    (f : Nat) (verify : Bool)
    (h200 : (w.packages pid range .HYBRID).status = 200)
    (h17 : 17 ≤ (w.packages pid range .HYBRID).fault_state.getD 0) :
    (∀ p, fetch w pid range .HYBRID ≠ .ok p)
    ∧ ((w.packages pid range .HYBRID).fault_state.getD 0 = 17 →
        fetch w pid range .HYBRID = .error (.resolutionError
          (lit "Package in PANIC state: " ++
            (w.packages pid range .HYBRID).error_message.getD (lit "Unknown error"))))
    ∧ (∃ e, installGo w (f + 1) pid range verify = (.error e, [.fetch pid])) := by
  by_cases h17eq : (w.packages pid range .HYBRID).fault_state.getD 0 = 17
  · have hf := fetch_panic h200 h17eq
    exact ⟨fun p hp => by rw [hf] at hp; exact Except.noConfusion hp,
      fun _ => hf, ⟨_, installGo_fetch_error hf⟩⟩
  · have hnm : (w.packages pid range .HYBRID).fault_state.getD 0 ∉ faultValues := by
      simp only [faultValues, List.mem_cons, List.not_mem_nil, or_false]
      omega
    have hf := fetch_invalid_fault h200 hnm
    exact ⟨fun p hp => by rw [hf] at hp; exact Except.noConfusion hp,
      fun h17' => absurd h17' h17eq, ⟨_, installGo_fetch_error hf⟩⟩

/-- A generic 200 response used by the concrete registries below. -/
def mkResp (pid : Str) (deps : List Str) (fs : Int) : Resp :=
  { status := 200, text := [], id := pid,
    version := lit "1.stable.0.stable.0.stable", name := pid,
    description := [], author := [], license := [], tarball_url := pid,
    dependencies := some deps, checksum := lit "cs", fault_state := some fs,
    error_message := none }

/-- A registry whose every package reports fault state 17. -/
def wPanic : World :=
  { packages := fun pid _ _ => mkResp pid [lit "B@r"] 17,
    tarballs := fun _ => { status := 200, content := [] },
    sha256hex := fun _ => lit "cs",
    subscribeResp := fun _ => { status := 200, observer_id := lit "o" } }

/-- C1 witness: the theorem applied to a concrete registry whose root
package (with one declared dependency) reports fault state 17. -/
theorem c1_panic_witness :
    (∀ p, fetch wPanic (lit "A") (lit "r") .HYBRID ≠ .ok p)
    ∧ (∃ e, installGo wPanic 5 (lit "A") (lit "r") true = (.error e, [.fetch (lit "A")])) := by
  have h := c1_panic_blocks_before_dependencies wPanic (lit "A") (lit "r") 4 true
    (by decide) (by decide)
  exact ⟨h.1, h.2.2⟩

/-! ## Claim C9 — `subscribe` is not atomic on remote failure -/

lemma tblGet_tblSet (t : ObsTable) (k : Str) (v : List Nat) :
    tblGet (tblSet t k v) k = some v := by
  induction t with
  | nil => simp [tblSet, tblGet]
  | cons kv rest ih =>
      obtain ⟨k2, v2⟩ := kv
      by_cases h : k2 = k
      · simp [tblSet, tblGet, h]
      · simp [tblSet, tblGet, h, ih]

/-- C9 (amended): when the remote observer registration fails, `subscribe`
raises, but the locally appended callback stays in the table — the local
registration is not rolled back, leaving an orphaned local subscription. -/
theorem c9_orphaned_subscription (w : World) (t : ObsTable) (pid : Str)
    (cb : Nat) (h : (w.subscribeResp pid).status ≠ 200) :
    (subscribe w t pid cb).1 = .error (.exception (lit "Failed to subscribe: "))
    ∧ tblGet (subscribe w t pid cb).2 pid =
        some ((tblGet t pid).getD [] ++ [cb]) := by
  cases h2 : tblGet t pid with
  | none => simp [subscribe, h, h2, tblGet_tblSet]
  | some v => simp [subscribe, h, h2, tblGet_tblSet]

/-- A registry whose subscription endpoint always fails. -/
def wSub500 : World :=
  { packages := fun pid _ _ => mkResp pid [] 0,
    tarballs := fun _ => { status := 200, content := [] },
    sha256hex := fun _ => lit "cs",
    subscribeResp := fun _ => { status := 500, observer_id := [] } }

/-- C9 counterexample: after a failed remote registration starting from an
empty table, the local table still holds the callback — the claim requires
it to be left unchanged (empty). -/
theorem c9_counterexample_no_rollback :
    (subscribe wSub500 [] (lit "P") 7).2 = [(lit "P", [7])]
    ∧ (subscribe wSub500 [] (lit "P") 7).1 =
        .error (.exception (lit "Failed to subscribe: ")) := by
  decide

/-- C9 witness: the amended theorem applied to the failing registry and a
concrete callback. -/
theorem c9_orphaned_witness :
    (subscribe wSub500 [] (lit "Q") 3).1 =
      .error (.exception (lit "Failed to subscribe: "))
    ∧ tblGet (subscribe wSub500 [] (lit "Q") 3).2 (lit "Q") =
        some ((tblGet ([] : ObsTable) (lit "Q")).getD [] ++ [3]) :=
  c9_orphaned_subscription wSub500 [] (lit "Q") 3 (by decide)

/-! ## Claim C10 — dependency declarations are unpacked from `split('@')` -/

/-- `s.split(sep)` always has one more piece than `s` has separators. -/
lemma splitOnChar_length (sep : Char) (l : Str) :
    (splitOnChar sep l).length = l.count sep + 1 := by
  induction l with
  | nil => rfl
  | cons c rest ih =>
      obtain ⟨t, ts, hts⟩ := List.exists_cons_of_ne_nil (splitOnChar_ne_nil sep rest)
      rw [hts] at ih
      simp only [splitOnChar, hts]
      by_cases hc : c = sep
      · subst hc
        rw [if_pos rfl]
        simp only [List.length_cons, List.count_cons_self] at ih ⊢
        omega
      · rw [if_neg hc, List.count_cons_of_ne (fun h => hc h.symm)]
        simpa using ih

lemma foldl_depsStep_error (step : Str → Str → Except PyErr Package × List Ev)
    (deps : List Str) (e : PyErr) (evs : List Ev) :
    deps.foldl (depsStep step) (.error e, evs) = (.error e, evs) := by
  induction deps with
  | nil => rfl
  | cons d rest ih => rw [List.foldl_cons, depsStep, ih]

/-- C10: a dependency declaration without exactly one `@` — in particular a
scoped identifier, whose leading `@` yields three pieces — makes the
unpacking at line 220 raise an untyped `ValueError`, aborting the dependency
loop; if the root package carries such a declaration, `install` itself ends
with that `ValueError` (not a typed resolution error) after installing the
root. -/
theorem c10_dependency_unpack_valueerror (w : World) (f : Nat) (dep : Str)
    (rest : List Str) (verify : Bool) (pid range : Str) (pkg : Package)
    (h : dep.count '@' ≠ 1) :
    depsRun (fun a b => installGo w f a b verify) (dep :: rest) =
      (.error (.valueError (lit "values to unpack")), [])
    ∧ (fetch w pid range .HYBRID = .ok pkg → pkg.dependencies = dep :: rest →
        (w.tarballs pkg.tarball_url).status < 400 →
        installGo w (f + 1) pid range false =
          (.error (.valueError (lit "values to unpack")),
            [.fetch pid, .installed pkg.name])) := by
  have hlen : (splitOnChar '@' dep).length ≠ 2 := by
    rw [splitOnChar_length]
    omega
  have hfirst : ∀ vrf : Bool,
      depsStep (fun a b => installGo w f a b vrf) (.ok (), []) dep =
        (.error (.valueError (lit "values to unpack")), []) := by
    intro vrf
    unfold depsStep
    rcases hs : splitOnChar '@' dep with _ | ⟨t, _ | ⟨u, _ | ⟨v2, ws⟩⟩⟩
    · rfl
    · rfl
    · rw [hs] at hlen
      exact absurd rfl hlen
    · rfl
  constructor
  · unfold depsRun
    rw [List.foldl_cons, hfirst verify, foldl_depsStep_error]
  · intro hfetch hdeps htar
    simp only [installGo, hfetch, Bool.false_eq_true, if_false,
      if_neg (Nat.not_le.mpr htar), hdeps]
    unfold depsRun
    rw [List.foldl_cons, hfirst false, foldl_depsStep_error]

/-- C10 witness data: a root whose only dependency declaration is a scoped
identifier with two `@` characters. -/
def wScoped : World :=
  { packages := fun pid _ _ =>
      if pid = lit "A" then
        mkResp (lit "A") [lit "@obinexus/core@2.stable.1.stable.0.stable"] 0
      else mkResp pid [] 0,
    tarballs := fun _ => { status := 200, content := [] },
    sha256hex := fun _ => lit "cs",
    subscribeResp := fun _ => { status := 200, observer_id := lit "o" } }

/-- The package `fetch` produces for the root of `wScoped`. -/
def pkgScoped : Package :=
  { id := lit "A", version := ⟨1, .STABLE, 0, .STABLE, 0, .STABLE⟩,
    name := lit "A", description := [], author := [], license := [],
    tarball_url := lit "A",
    dependencies := [lit "@obinexus/core@2.stable.1.stable.0.stable"],
    checksum := lit "cs", fault_state := .CLEAN }

/-- C10 witness: the theorem applied to the scoped declaration
`"@obinexus/core@2.stable.1.stable.0.stable"` (two `@`, three pieces). -/
theorem c10_unpack_witness :
    (lit "@obinexus/core@2.stable.1.stable.0.stable").count '@' = 2
    ∧ installGo wScoped 2 (lit "A") (lit "r") false =
        (.error (.valueError (lit "values to unpack")),
          [.fetch (lit "A"), .installed (lit "A")]) := by
  refine ⟨by decide, ?_⟩
  have h := (c10_dependency_unpack_valueerror wScoped 1
    (lit "@obinexus/core@2.stable.1.stable.0.stable") [] false (lit "A") (lit "r")
    pkgScoped (by decide)).2 (by decide) (by decide) (by decide)
  exact h

/-! ## Claims C3, C4, C5 — the recursive install loop on concrete graphs -/

/-- A registry with the cyclic dependency graph A → B → C → A. -/
def wCyc : World :=
  { packages := fun pid _ _ =>
      if pid = lit "A" then mkResp (lit "A") [lit "B@r"] 0
      else if pid = lit "B" then mkResp (lit "B") [lit "C@r"] 0
      else mkResp (lit "C") [lit "A@r"] 0,
    tarballs := fun _ => { status := 200, content := [] },
    sha256hex := fun _ => lit "cs",
    subscribeResp := fun _ => { status := 200, observer_id := lit "o" } }

/-- One unfolding of `install` on `wCyc`: an entry whose package declares the
single dependency `dep` (splitting as `next@r`) ends in `RecursionError`
whenever installing `next` at one less depth does. -/
lemma cyc_entry_step (f : Nat) (pid dep next : Str)
    (hresp : wCyc.packages pid (lit "r") .HYBRID = mkResp pid [dep] 0)
    (hsplit : splitOnChar '@' dep = [next, lit "r"])
    (ih : (installGo wCyc f next (lit "r") true).1 = .error .recursionError) :
    (installGo wCyc (f + 1) pid (lit "r") true).1 = .error .recursionError := by
  have hf : fetch wCyc pid (lit "r") .HYBRID = .ok
      { id := pid, version := ⟨1, .STABLE, 0, .STABLE, 0, .STABLE⟩, name := pid,
        description := [], author := [], license := [], tarball_url := pid,
        dependencies := [dep], checksum := lit "cs", fault_state := .CLEAN } := by
    simp only [fetch, hresp]
    rfl
  have hstep : installGo wCyc (f + 1) pid (lit "r") true =
      (match depsRun (fun a b => installGo wCyc f a b true) [dep] with
       | (.error e, devs) => (.error e, .fetch pid :: .installed pid :: devs)
       | (.ok _, devs) =>
          (.ok { id := pid, version := ⟨1, .STABLE, 0, .STABLE, 0, .STABLE⟩,
                 name := pid, description := [], author := [], license := [],
                 tarball_url := pid, dependencies := [dep], checksum := lit "cs",
                 fault_state := .CLEAN },
            .fetch pid :: .installed pid :: devs)) := by
    simp only [installGo, hf]
    rfl
  have hdeps : depsRun (fun a b => installGo wCyc f a b true) [dep] =
      (.error .recursionError, (installGo wCyc f next (lit "r") true).2) := by
    have h0 : depsRun (fun a b => installGo wCyc f a b true) [dep] =
        ((installGo wCyc f next (lit "r") true).1.map (fun _ => ()),
          [] ++ (installGo wCyc f next (lit "r") true).2) := by
      unfold depsRun
      rw [List.foldl_cons, List.foldl_nil]
      unfold depsStep
      rw [hsplit]
    rw [h0, ih]
    rfl
  rw [hstep, hdeps]

/-- C3: on the cyclic graph A → B → C → A the recursive install of lines
218–221 never terminates normally — for every recursion budget, entering at
A, B or C exhausts the budget and ends in CPython's untyped
`RecursionError`; no typed cyclic-dependency error exists in the code (the
cycle is neither detected nor broken, and no result is returned). -/
theorem c3_cycle_nontermination (f : Nat) :
    (installGo wCyc f (lit "A") (lit "r") true).1 = .error .recursionError
    ∧ (installGo wCyc f (lit "B") (lit "r") true).1 = .error .recursionError
    ∧ (installGo wCyc f (lit "C") (lit "r") true).1 = .error .recursionError := by
  induction f with
  | zero => exact ⟨rfl, rfl, rfl⟩
  | succ f ih =>
      obtain ⟨ihA, ihB, ihC⟩ := ih
      exact ⟨cyc_entry_step f (lit "A") (lit "B@r") (lit "B") (by rfl) (by decide) ihB,
        cyc_entry_step f (lit "B") (lit "C@r") (lit "C") (by rfl) (by decide) ihC,
        cyc_entry_step f (lit "C") (lit "A@r") (lit "A") (by rfl) (by decide) ihA⟩

/-- A registry with the acyclic graph A → B (B has no dependencies). -/
def wAB : World :=
  { packages := fun pid _ _ =>
      if pid = lit "A" then mkResp (lit "A") [lit "B@r"] 0
      else mkResp (lit "B") [] 0,
    tarballs := fun _ => { status := 200, content := [] },
    sha256hex := fun _ => lit "cs",
    subscribeResp := fun _ => { status := 200, observer_id := lit "o" } }

/-- C4: on the acyclic graph A → B the install succeeds but runs in
pre-order — A's install step (download/extract, lines 211–216) happens
before its dependency B is even fetched, so the produced order violates the
claimed topological order (dependencies strictly before dependents) for
every strategy: `install` always calls `fetch` with the default `HYBRID`
strategy and never reorders. -/
theorem c4_install_order_not_topological :
    (installGo wAB 3 (lit "A") (lit "r") true).2 =
      [.fetch (lit "A"), .installed (lit "A"), .fetch (lit "B"), .installed (lit "B")]
    ∧ (installGo wAB 3 (lit "A") (lit "r") true).1 =
        .ok { id := lit "A", version := ⟨1, .STABLE, 0, .STABLE, 0, .STABLE⟩,
              name := lit "A", description := [], author := [], license := [],
              tarball_url := lit "A", dependencies := [lit "B@r"],
              checksum := lit "cs", fault_state := .CLEAN } := by
  decide

/-- A registry with the diamond graph R → B, R → C, B → D, C → D. -/
def wDia : World :=
  { packages := fun pid _ _ =>
      if pid = lit "R" then mkResp (lit "R") [lit "B@r", lit "C@r"] 0
      else if pid = lit "B" then mkResp (lit "B") [lit "D@r"] 0
      else if pid = lit "C" then mkResp (lit "C") [lit "D@r"] 0
      else mkResp (lit "D") [] 0,
    tarballs := fun _ => { status := 200, content := [] },
    sha256hex := fun _ => lit "cs",
    subscribeResp := fun _ => { status := 200, observer_id := lit "o" } }

/-- C5 counterexample: in the diamond graph the package D is reachable along
two paths and is fetched twice in the single `install` call — the claim
requires at most one fetch per identifier with the second request served
from a cache. -/
theorem c5_counterexample_refetch :
    ((installGo wDia 5 (lit "R") (lit "r") true).2.count (Ev.fetch (lit "D")) = 2)
    ∧ ((installGo wDia 5 (lit "R") (lit "r") true).2.count (Ev.installed (lit "D")) = 2) := by
  decide

/-- C5 (amended): `install` keeps no per-call cache at all — every visit of a
node begins with a fresh fetch of its metadata (the event log of any install
call starts with the fetch of its own identifier, visited before or not),
and on the diamond graph R → {B, C} → D the identifier D is fetched and
installed once per path, i.e. twice. -/
theorem c5_no_fetch_cache :
    (∀ (w : World) (f : Nat) (pid range : Str) (verify : Bool),
      ((installGo w (f + 1) pid range verify).2).head? = some (.fetch pid))
    ∧ (installGo wDia 5 (lit "R") (lit "r") true).2 =
        [.fetch (lit "R"), .installed (lit "R"),
         .fetch (lit "B"), .installed (lit "B"),
         .fetch (lit "D"), .installed (lit "D"),
         .fetch (lit "C"), .installed (lit "C"),
         .fetch (lit "D"), .installed (lit "D")] := by
  constructor
  · intro w f pid range verify
    rcases hf : fetch w pid range .HYBRID with e | p
    · simp only [installGo, hf]
      rfl
    · rcases hv : (if verify then verify_checksum w p else Except.ok ()) with e2 | u
      · simp only [installGo, hf, hv]
        rfl
      · by_cases ht : 400 ≤ (w.tarballs p.tarball_url).status
        · simp only [installGo, hf, hv, if_pos ht]
          rfl
        · rcases hd : depsRun (fun a b => installGo w f a b verify) p.dependencies
            with ⟨r, devs⟩
          cases r with
          | error e3 =>
              simp only [installGo, hf, hv, if_neg ht, hd]
              rfl
          | ok u2 =>
              simp only [installGo, hf, hv, if_neg ht, hd]
              rfl
  · decide

/-! ## Claim C6 — checksum verification is exact, not case-insensitive -/

/-- The tarball bytes of the C6 counterexample are empty; the oracle returns
the true SHA-256 hex digest of the empty byte string (lowercase), while the
declared checksum is the same digest in uppercase. -/
def wChecksum : World :=
  { packages := fun pid _ _ =>
      { mkResp pid [] 0 with
          checksum := lit "E3B0C44298FC1C149AFBF4C8996FB92427AE41E4649B934CA495991B7852B855" },
    tarballs := fun _ => { status := 200, content := [] },
    sha256hex :=
      fun _ => lit "e3b0c44298fc1c149afbf4c8996fb92427ae41e4649b934ca495991b7852b855",
    subscribeResp := fun _ => { status := 200, observer_id := lit "o" } }

/-- The package `fetch` produces from `wChecksum` for id `P`. -/
def pkgUpper : Package :=
  { id := lit "P", version := ⟨1, .STABLE, 0, .STABLE, 0, .STABLE⟩,
    name := lit "P", description := [], author := [], license := [],
    tarball_url := lit "P", dependencies := [],
    checksum := lit "E3B0C44298FC1C149AFBF4C8996FB92427AE41E4649B934CA495991B7852B855",
    fault_state := .CLEAN }

/-- A registry with the graph R → D where R's declared checksum matches the
recomputed digest but D's differs from it (only in letter case). -/
def wDepChecksum : World :=
  { packages := fun pid _ _ =>
      if pid = lit "R" then
        { mkResp (lit "R") [lit "D@r"] 0 with
            checksum := lit "e3b0c44298fc1c149afbf4c8996fb92427ae41e4649b934ca495991b7852b855" }
      else
        { mkResp pid [] 0 with
            checksum := lit "E3B0C44298FC1C149AFBF4C8996FB92427AE41E4649B934CA495991B7852B855" },
    tarballs := fun _ => { status := 200, content := [] },
    sha256hex :=
      fun _ => lit "e3b0c44298fc1c149afbf4c8996fb92427ae41e4649b934ca495991b7852b855",
    subscribeResp := fun _ => { status := 200, observer_id := lit "o" } }

/-- The package `fetch` produces from `wDepChecksum` for id `D`. -/
def pkgDepD : Package :=
  { id := lit "D", version := ⟨1, .STABLE, 0, .STABLE, 0, .STABLE⟩,
    name := lit "D", description := [], author := [], license := [],
    tarball_url := lit "D", dependencies := [],
    checksum := lit "E3B0C44298FC1C149AFBF4C8996FB92427AE41E4649B934CA495991B7852B855",
    fault_state := .CLEAN }

/-- C6 (amended): `_verify_checksum` compares the recomputed lowercase hex
digest to `package.checksum` by exact, case-sensitive string equality —
equal strings verify, and any difference (a letter-case difference included)
raises a `ResolutionError` carrying both the expected and the actual digest.
A package that fails verification is not installed and its dependencies are
never fetched, and the error aborts the remainder of the call; but because
`install` processes dependents before their dependencies, a dependent
already installed when the mismatch is discovered stays installed: on R → D
with a bad checksum on D, the call installs R, then aborts at D. -/
theorem c6_checksum_exact_comparison (w : World) (pkg : Package) (f : Nat)
    (pid range : Str) :
    (w.sha256hex (w.tarballs pkg.tarball_url).content ≠ pkg.checksum →
      verify_checksum w pkg = .error (.resolutionError
        (mismatchMsg pkg (w.sha256hex (w.tarballs pkg.tarball_url).content))))
    ∧ (w.sha256hex (w.tarballs pkg.tarball_url).content = pkg.checksum →
      verify_checksum w pkg = .ok ())
    ∧ (fetch w pid range .HYBRID = .ok pkg →
      w.sha256hex (w.tarballs pkg.tarball_url).content ≠ pkg.checksum →
      installGo w (f + 1) pid range true =
        (.error (.resolutionError
          (mismatchMsg pkg (w.sha256hex (w.tarballs pkg.tarball_url).content))),
          [.fetch pid]))
    ∧ installGo wDepChecksum 3 (lit "R") (lit "r") true =
        (.error (.resolutionError (mismatchMsg pkgDepD
          (wDepChecksum.sha256hex (wDepChecksum.tarballs pkgDepD.tarball_url).content))),
          [.fetch (lit "R"), .installed (lit "R"), .fetch (lit "D")]) := by
  refine ⟨fun hne => ?_, fun heq => ?_, fun hfetch hne => ?_, by decide⟩
  · simp only [verify_checksum, if_pos hne]
  · simp only [verify_checksum]
    rw [if_neg (fun hc => hc heq)]
  · have hv : verify_checksum w pkg = .error (.resolutionError
        (mismatchMsg pkg (w.sha256hex (w.tarballs pkg.tarball_url).content))) := by
      simp only [verify_checksum, if_pos hne]
    simp only [installGo, hfetch, hv, if_true]

/-- C6 counterexample: a declared checksum differing from the recomputed
digest only in hex letter case fails verification — the comparison at
line 272 is `!=` on the exact strings, not case-insensitive — and on the
graph R → D with the mismatch on D, the dependent R is downloaded and
installed before D's mismatch aborts the call, refuting both the claimed
case-insensitive comparison and the claim that on mismatch the package and
its dependents are not installed. -/
theorem c6_counterexample_case_sensitivity :
    ((wChecksum.sha256hex (wChecksum.tarballs pkgUpper.tarball_url).content).map
        Char.toLower = pkgUpper.checksum.map Char.toLower
      ∧ verify_checksum wChecksum pkgUpper = .error (.resolutionError
          (mismatchMsg pkgUpper
            (wChecksum.sha256hex (wChecksum.tarballs pkgUpper.tarball_url).content))))
    ∧ ((installGo wDepChecksum 3 (lit "R") (lit "r") true).2 =
        [.fetch (lit "R"), .installed (lit "R"), .fetch (lit "D")]
      ∧ (wDepChecksum.sha256hex (wDepChecksum.tarballs pkgDepD.tarball_url).content).map
          Char.toLower = pkgDepD.checksum.map Char.toLower) := by
  decide

/-- C6 witness: the amended theorem applied to the concrete registry with
the case-differing checksum. -/
theorem c6_checksum_witness :
    verify_checksum wChecksum pkgUpper = .error (.resolutionError
      (mismatchMsg pkgUpper
        (wChecksum.sha256hex (wChecksum.tarballs pkgUpper.tarball_url).content)))
    ∧ installGo wChecksum 3 (lit "P") (lit "r") true =
        (.error (.resolutionError
          (mismatchMsg pkgUpper
            (wChecksum.sha256hex (wChecksum.tarballs pkgUpper.tarball_url).content))),
          [.fetch (lit "P")]) := by
  have h := c6_checksum_exact_comparison wChecksum pkgUpper 2 (lit "P") (lit "r")
  exact ⟨h.1 (by decide), h.2.2.1 (by decide) (by decide)⟩
